import Mathlib

/-!
Verification of the Conway's-Game-of-Life simulation core in `src/main.rs`.

The embedding models the `Conway` struct and its methods `new`, `new_random`,
`update`, `draw`, `neighbors` and `next_cell_state` as pure Lean functions.
Cell buffers (`Vec<bool>`) become `List Bool`; the RGBA byte buffer
(`&mut [u8]`) becomes a `List Nat` of byte values, and `draw` returns the
buffer that results from the in-place writes.  Rust `i32` coordinates become
`Int`; `usize` lengths and indices become `Nat`.  The randomness source of
`new_random` is modelled as an explicit stream `draws : Nat → Bool` of
Bernoulli draws, one per cell, matching the per-cell `rng.random_bool(0.3)`
calls.
-/

structure Conway where
  cells : List Bool
  scratch_cells : List Bool
  width : Nat
  height : Nat
deriving DecidableEq

/-- `Conway::new`: both buffers have length `width * height`, all cells dead.
The Rust function is total (it returns `Self`, not a `Result`): there is no
dimension check and no error path. -/
def Conway.new (width height : Nat) : Conway :=
  { cells := List.replicate (width * height) false
    scratch_cells := List.replicate (width * height) false
    width := width
    height := height }

/-- `Conway::new_random`: `new`, then every cell of `cells` is overwritten with
an independent draw from the random source. -/
def Conway.new_random (width height : Nat) (draws : Nat → Bool) : Conway :=
  { Conway.new width height with cells := (List.range (width * height)).map draws }

/-- The offsets visited by the two nested loops `for dx in -1..=1 { for dy in
-1..=1 { ... } }` in `Conway::neighbors`, in loop order.  Note that the source
has no `continue` for `dx == 0 && dy == 0`: the pair `(0, 0)` IS visited, so
the cell's own state is counted. -/
def neighborDeltas : List (Int × Int) :=
  [(-1, -1), (-1, 0), (-1, 1), (0, -1), (0, 0), (0, 1), (1, -1), (1, 0), (1, 1)]

/-- `Conway::neighbors`: for each offset, the guard checks
`0 <= nx && nx < width && 0 <= ny && ny < height && self.cells[idx]` with
`idx = nx + ny * width`; short-circuiting means `cells` is only read when the
coordinate is in bounds (the out-of-range `idx` computed from a negative
coordinate by the `as usize` cast is never used). -/
def Conway.neighbors (g : Conway) (x y : Int) : Nat :=
  neighborDeltas.foldl
    (fun n d =>
      let nx := x + d.1
      let ny := y + d.2
      if 0 ≤ nx ∧ nx < (g.width : Int) ∧ 0 ≤ ny ∧ ny < (g.height : Int) ∧
          g.cells.getD (nx + ny * (g.width : Int)).toNat false = true
      then n + 1 else n)
    0

/-- `Conway::next_cell_state`: `(2..=3).contains(&neighbors)` for a live cell,
`neighbors == 3` for a dead one. -/
def Conway.next_cell_state (alive : Bool) (n : Nat) : Bool :=
  if alive then decide (2 ≤ n ∧ n ≤ 3) else decide (n = 3)

/-- `Conway::update`: for every cell index `idx = x + width * y` in row-major
order, `scratch_cells[idx] = next_cell_state(cells[idx], neighbors(x, y))`,
reading only the pre-call `cells`; then the two buffers are swapped
(`std::mem::swap`). -/
def Conway.update (g : Conway) : Conway :=
  { g with
    cells :=
      (List.range (g.width * g.height)).foldl
        (fun s idx =>
          s.set idx (Conway.next_cell_state (g.cells.getD idx false)
            (g.neighbors (idx % g.width) (idx / g.width))))
        g.scratch_cells
    scratch_cells := g.cells }

/-- The RGBA color written for one cell: opaque white for alive, opaque black
for dead. -/
def colorOf (c : Bool) : List Nat :=
  if c then [0xff, 0xff, 0xff, 0xff] else [0x00, 0x00, 0x00, 0xff]

/-- The `zip` of `self.cells.iter()` with `frame.chunks_exact_mut(4)` in
`Conway::draw`: as long as a cell and a complete 4-byte chunk both remain, the
chunk is overwritten with the cell's color; everything past the zipped prefix
(leftover bytes of a partial chunk, or all remaining bytes once the cells run
out) is left unchanged. -/
def drawChunks : List Bool → List Nat → List Nat
  | c :: cs, _ :: _ :: _ :: _ :: rest => colorOf c ++ drawChunks cs rest
  | _, frame => frame

/-- `Conway::draw`: writes `cells` into the frame, 4 bytes per cell.  It takes
`&self`, so the grid itself is never mutated; the returned list is the new
contents of the caller's buffer. -/
def Conway.draw (g : Conway) (frame : List Nat) : List Nat :=
  drawChunks g.cells frame

/-- The concatenation of the colors of a list of cells: the byte image of a
fully rendered prefix. -/
def pixelBytes : List Bool → List Nat
  | [] => []
  | c :: cs => colorOf c ++ pixelBytes cs

/-- The neighbor count the specification describes, for comparison with the
code: alive cells among the 8 cells surrounding `(x, y)` — the 3×3 block minus
the center itself — with out-of-bounds coordinates counting as dead.  This
definition follows the spec's words; `Conway.neighbors` follows the source. -/
def specNeighborDeltas : List (Int × Int) :=
  [(-1, -1), (-1, 0), (-1, 1), (0, -1), (0, 1), (1, -1), (1, 0), (1, 1)]

/-- Spec-side neighbor count over `specNeighborDeltas` (center excluded),
same bounds policy and buffer layout as `Conway.neighbors`. -/
def specNeighbors (g : Conway) (x y : Int) : Nat :=
  specNeighborDeltas.foldl
    (fun n d =>
      let nx := x + d.1
      let ny := y + d.2
      if 0 ≤ nx ∧ nx < (g.width : Int) ∧ 0 ≤ ny ∧ ny < (g.height : Int) ∧
          g.cells.getD (nx + ny * (g.width : Int)).toNat false = true
      then n + 1 else n)
    0

/-- A 3×3 grid whose only live cell is the center `(1, 1)`. -/
def center3 : Conway :=
  { cells := [false, false, false, false, true, false, false, false, false]
    scratch_cells := List.replicate 9 false
    width := 3
    height := 3 }

/-- A 4×4 grid holding a "block": the 2×2 square `(1,1), (2,1), (1,2), (2,2)`
alive, all other cells dead. -/
def block4 : Conway :=
  { cells := [false, false, false, false,
              false, true, true, false,
              false, true, true, false,
              false, false, false, false]
    scratch_cells := List.replicate 16 false
    width := 4
    height := 4 }

/-- The buffer-length invariant of the spec: both cell buffers have length
`width * height`. -/
def Conway.wellFormed (g : Conway) : Prop :=
  g.cells.length = g.width * g.height ∧
    g.scratch_cells.length = g.width * g.height

/-- One externally driven call into the core: `advance` (= `update`) or
`render` (= `draw` into some frame buffer). -/
inductive FrameOp
  | advance : FrameOp
  | render : List Nat → FrameOp

/-- The grid after a sequence of `advance`/`render` calls.  `update` mutates
the grid; `draw` takes `&self`, so a `render` call leaves the grid exactly as
it was. -/
def runOps : List FrameOp → Conway → Conway
  | [], g => g
  | FrameOp.advance :: ops, g => runOps ops g.update
  | FrameOp.render _ :: ops, g => runOps ops g

theorem colorOf_length (c : Bool) : (colorOf c).length = 4 := by
  cases c <;> rfl

theorem foldl_set_length (f : Nat → Bool) (idxs : List Nat) :
    ∀ s : List Bool,
      (idxs.foldl (fun acc i => acc.set i (f i)) s).length = s.length := by
  induction idxs with
  | nil => intro s; rfl
  | cons i idxs ih =>
    intro s
    rw [List.foldl_cons, ih, List.length_set]

theorem foldl_set_range_getElem? (f : Nat → Bool) (n : Nat) :
    ∀ (s : List Bool) (j : Nat),
      ((List.range n).foldl (fun acc i => acc.set i (f i)) s)[j]? =
        if j < n ∧ j < s.length then some (f j) else s[j]? := by
  induction n with
  | zero => intro s j; simp
  | succ n ih =>
    intro s j
    rw [List.range_succ, List.foldl_append, List.foldl_cons, List.foldl_nil,
      List.getElem?_set, foldl_set_length, ih]
    by_cases hnj : n = j
    · subst hnj
      by_cases hns : n < s.length
      · simp [hns]
      · simp [hns, List.getElem?_eq_none (Nat.le_of_not_lt hns)]
    · have hiff : (j < n ∧ j < s.length) ↔ (j < n + 1 ∧ j < s.length) := by
        omega
      simp [hnj, hiff]

theorem foldl_set_range_getD (f : Nat → Bool) (n : Nat) (s : List Bool)
    (j : Nat) :
    ((List.range n).foldl (fun acc i => acc.set i (f i)) s).getD j false =
      if j < n ∧ j < s.length then f j else s.getD j false := by
  rw [List.getD_eq_getElem?_getD, foldl_set_range_getElem?]
  split <;> simp [List.getD_eq_getElem?_getD]

theorem getD_replicate_false (n i : Nat) :
    (List.replicate n false).getD i false = false := by
  rw [List.getD_eq_getElem?_getD, List.getElem?_replicate]
  split <;> rfl

theorem neighbors_of_dead (g : Conway)
    (hc : g.cells = List.replicate (g.width * g.height) false) (x y : Int) :
    g.neighbors x y = 0 := by
  have hget : ∀ i : Nat, g.cells[i]?.getD false = false := by
    intro i
    rw [hc, List.getElem?_replicate]
    split <;> rfl
  simp [Conway.neighbors, neighborDeltas, hget]

theorem drawChunks_length (cs : List Bool) :
    ∀ frame : List Nat, (drawChunks cs frame).length = frame.length := by
  induction cs with
  | nil => intro frame; rfl
  | cons c cs ih =>
    intro frame
    rcases frame with _ | ⟨b0, _ | ⟨b1, _ | ⟨b2, _ | ⟨b3, rest⟩⟩⟩⟩
    · rfl
    · rfl
    · rfl
    · rfl
    · show (colorOf c ++ drawChunks cs rest).length =
        (b0 :: b1 :: b2 :: b3 :: rest).length
      rw [List.length_append, colorOf_length, ih]
      simp [List.length_cons]
      omega

theorem drawChunks_eq (cs : List Bool) :
    ∀ frame : List Nat,
      drawChunks cs frame =
        pixelBytes (cs.take (frame.length / 4)) ++
          frame.drop (4 * min cs.length (frame.length / 4)) := by
  induction cs with
  | nil =>
    intro frame
    rw [show drawChunks [] frame = frame from rfl]
    simp [pixelBytes]
  | cons c cs ih =>
    intro frame
    rcases frame with _ | ⟨b0, _ | ⟨b1, _ | ⟨b2, _ | ⟨b3, rest⟩⟩⟩⟩
    · rw [show drawChunks (c :: cs) [] = ([] : List Nat) from rfl]
      simp [pixelBytes]
    · rw [show drawChunks (c :: cs) [b0] = [b0] from rfl]
      simp [pixelBytes]
    · rw [show drawChunks (c :: cs) [b0, b1] = [b0, b1] from rfl]
      simp [pixelBytes]
    · rw [show drawChunks (c :: cs) [b0, b1, b2] = [b0, b1, b2] from rfl]
      simp [pixelBytes]
    · have hdiv : (b0 :: b1 :: b2 :: b3 :: rest).length / 4 =
          rest.length / 4 + 1 := by
        simp [List.length_cons]
        omega
      have hmin : min (c :: cs).length (rest.length / 4 + 1) =
          min cs.length (rest.length / 4) + 1 := by
        rw [List.length_cons]
        omega
      have hdrop : (b0 :: b1 :: b2 :: b3 :: rest).drop
            (4 * (min cs.length (rest.length / 4) + 1)) =
          rest.drop (4 * min cs.length (rest.length / 4)) := by
        rw [Nat.mul_succ]
        rfl
      rw [show drawChunks (c :: cs) (b0 :: b1 :: b2 :: b3 :: rest) =
          colorOf c ++ drawChunks cs rest from rfl, ih, hdiv, hmin, hdrop,
        List.take_succ_cons,
        show pixelBytes (c :: cs.take (rest.length / 4)) =
          colorOf c ++ pixelBytes (cs.take (rest.length / 4)) from rfl,
        List.append_assoc]

theorem pixelBytes_getD (cs : List Bool) :
    ∀ i j : Nat, i < cs.length → j < 4 →
      (pixelBytes cs).getD (4 * i + j) 0 =
        (colorOf (cs.getD i false)).getD j 0 := by
  induction cs with
  | nil => intro i j hi hj; simp at hi
  | cons c cs ih =>
    intro i j hi hj
    cases i with
    | zero =>
      have h0 : 4 * 0 + j = j := by omega
      rw [show pixelBytes (c :: cs) = colorOf c ++ pixelBytes cs from rfl, h0,
        List.getD_append (h := by rw [colorOf_length]; exact hj)]
      rfl
    | succ i =>
      have hi' : i < cs.length := by
        simp [List.length_cons] at hi
        omega
      have harith : 4 * (i + 1) + j = (colorOf c).length + (4 * i + j) := by
        rw [colorOf_length]
        omega
      have hsub : (colorOf c).length + (4 * i + j) - (colorOf c).length =
          4 * i + j := by omega
      rw [show pixelBytes (c :: cs) = colorOf c ++ pixelBytes cs from rfl,
        harith, List.getD_append_right (h := Nat.le_add_right _ _), hsub]
      exact ih i j hi' hj

/-- Claim C1 (code_bug): on the 3×3 grid with only the center alive, the
code's `neighbors(1, 1)` returns 1 — it counts the center cell itself, because
the `(dx, dy) = (0, 0)` offset is not skipped — while the claimed count over
the 8 surrounding cells (formalized by `specNeighbors`) is 0. -/
theorem neighbors_counts_center :
    center3.neighbors 1 1 = 1 ∧ specNeighbors center3 1 1 = 0 := by decide

/-- Claim C2 (code_bug): in the 4×4 block grid, cell `(1, 1)` (index 5) is
alive with exactly 3 live cells among its 8 surrounding cells, so under B3/S23
one `update` must keep it alive; the code kills it, because `neighbors` also
counts the cell itself (giving 4, outside `2..=3`). -/
theorem update_kills_cell_with_three :
    block4.cells.getD 5 false = true ∧ specNeighbors block4 1 1 = 3 ∧
      (block4.update).cells.getD 5 false = false := by decide

/-- Claim C5 (code_bug): the 2×2 block is not a fixed point of the code's
`update`: one call kills every cell of the block (each live cell counts itself
plus its 3 block neighbors, 4 ∉ `2..=3`), leaving the grid all dead. -/
theorem block_dies_after_update :
    (block4.update).cells = List.replicate 16 false ∧
      block4.cells ≠ List.replicate 16 false := by decide

/-- Claim C6 (confirmed): one `update` of a grid whose cells are all dead
(with the scratch buffer at its invariant length) yields an all-dead `cells`
buffer: every neighbor count is 0 and `next_cell_state false 0 = false`, so
no cell is spontaneously born. -/
theorem update_of_all_dead (g : Conway)
    (hc : g.cells = List.replicate (g.width * g.height) false)
    (hs : g.scratch_cells.length = g.width * g.height) :
    (g.update).cells = List.replicate (g.width * g.height) false := by
  apply List.ext_getElem?
  intro j
  rw [List.getElem?_replicate]
  show ((List.range (g.width * g.height)).foldl _ g.scratch_cells)[j]? = _
  rw [foldl_set_range_getElem?]
  by_cases hj : j < g.width * g.height
  · rw [if_pos ⟨hj, by omega⟩, if_pos hj, neighbors_of_dead g hc, hc,
      getD_replicate_false]
    rfl
  · rw [if_neg (fun hcon => hj hcon.1), if_neg hj]
    exact List.getElem?_eq_none (by omega)

/-- Witness for C6 at the concrete all-dead 2×3 grid. -/
theorem update_of_all_dead_witness :
    ((Conway.new 2 3).update).cells =
      List.replicate ((Conway.new 2 3).width * (Conway.new 2 3).height) false :=
  update_of_all_dead (Conway.new 2 3) rfl rfl

/-- Claim C9 (confirmed): `draw` is total for every buffer length: it writes
exactly `min (width*height) (frame.length / 4)` pixels from offset 0 in
row-major order, leaves every remaining byte (including a trailing partial
chunk of fewer than 4 bytes) unchanged, and preserves the buffer length.  A
wrong-sized buffer produces this silent truncated write, never a failure:
`Conway.draw` is a total function with no error path. -/
theorem draw_is_truncated_write (g : Conway) (frame : List Nat)
    (hc : g.cells.length = g.width * g.height) :
    g.draw frame =
      pixelBytes (g.cells.take (frame.length / 4)) ++
        frame.drop (4 * min (g.width * g.height) (frame.length / 4)) ∧
    (g.draw frame).length = frame.length := by
  constructor
  · rw [show g.draw frame = drawChunks g.cells frame from rfl, drawChunks_eq,
      hc]
  · exact drawChunks_length g.cells frame

/-- Witness for C9: a 2×2 grid rendered into a 5-byte buffer writes one pixel
and leaves the fifth byte alone. -/
theorem draw_is_truncated_write_witness :
    (Conway.new 2 2).draw [9, 9, 9, 9, 9] =
      pixelBytes ((Conway.new 2 2).cells.take ([9, 9, 9, 9, 9].length / 4)) ++
        [9, 9, 9, 9, 9].drop
          (4 * min ((Conway.new 2 2).width * (Conway.new 2 2).height)
            ([9, 9, 9, 9, 9].length / 4)) ∧
    ((Conway.new 2 2).draw [9, 9, 9, 9, 9]).length = [9, 9, 9, 9, 9].length :=
  draw_is_truncated_write (Conway.new 2 2) [9, 9, 9, 9, 9] rfl

/-- Claim C7 (confirmed): with a buffer of exactly `width*height*4` bytes,
`draw` writes for each cell index `i` (the cell `(i % width, i / width)` in
row-major layout) the 4 bytes at offsets `4*i .. 4*i+3`: opaque white
`(0xFF,0xFF,0xFF,0xFF)` if alive, opaque black `(0x00,0x00,0x00,0xFF)` if
dead, and the buffer length is preserved (the whole buffer is overwritten).
`draw` takes the grid immutably (`&self` in the source; a plain
non-`Conway`-returning function here), so the grid is not mutated. -/
theorem draw_exact_buffer_pixels (g : Conway) (frame : List Nat)
    (hc : g.cells.length = g.width * g.height)
    (hf : frame.length = g.width * g.height * 4)
    (i j : Nat) (hi : i < g.width * g.height) (hj : j < 4) :
    (g.draw frame).getD (4 * i + j) 0 =
      (colorOf (g.cells.getD i false)).getD j 0 ∧
    (g.draw frame).length = frame.length := by
  have hdraw : g.draw frame = pixelBytes g.cells := by
    rw [show g.draw frame = drawChunks g.cells frame from rfl, drawChunks_eq]
    have h4 : frame.length / 4 = g.width * g.height := by omega
    rw [h4, List.take_of_length_le (by omega), hc, Nat.min_self,
      List.drop_eq_nil_of_le (by omega)]
    simp
  constructor
  · rw [hdraw]
    exact pixelBytes_getD g.cells i j (by omega) hj
  · exact drawChunks_length g.cells frame

/-- Witness for C7 on a 1×2 grid with an exactly-sized 8-byte buffer, at cell
index 1, byte 3. -/
theorem draw_exact_buffer_pixels_witness :
    ((Conway.new 1 2).draw [5, 5, 5, 5, 5, 5, 5, 5]).getD (4 * 1 + 3) 0 =
      (colorOf ((Conway.new 1 2).cells.getD 1 false)).getD 3 0 ∧
    ((Conway.new 1 2).draw [5, 5, 5, 5, 5, 5, 5, 5]).length =
      [5, 5, 5, 5, 5, 5, 5, 5].length :=
  draw_exact_buffer_pixels (Conway.new 1 2) [5, 5, 5, 5, 5, 5, 5, 5] rfl rfl
    1 3 (by decide) (by decide)

/-- Claim C3 counterexample: with a buffer of length `width*height*4 - 1`
(here 15 = 2*2*4 - 1), `draw` does modify the buffer — it performs a partial
write of the first 3 pixels — contradicting the claim that the call fails
with `BufferSizeMismatch` and leaves the buffer contents unchanged.  The
source `draw` has no size check and no error path at all. -/
theorem draw_short_buffer_writes :
    (Conway.new 2 2).draw (List.replicate 15 7) ≠ List.replicate 15 7 := by
  decide

/-- Claim C3 as amended: with a buffer one byte short of `width*height*4`,
`draw` signals nothing and silently writes the first `width*height - 1`
pixels, leaving the trailing 3 bytes unchanged and preserving the buffer
length; the grid itself is unaffected (`draw` borrows it immutably). -/
theorem draw_one_short_buffer (g : Conway) (frame : List Nat)
    (hc : g.cells.length = g.width * g.height)
    (hf : frame.length + 1 = g.width * g.height * 4) :
    g.draw frame =
      pixelBytes (g.cells.take (g.width * g.height - 1)) ++
        frame.drop (4 * (g.width * g.height - 1)) ∧
    (g.draw frame).length = frame.length := by
  have hdiv : frame.length / 4 = g.width * g.height - 1 := by omega
  have hmin : min g.cells.length (g.width * g.height - 1) =
      g.width * g.height - 1 := by omega
  constructor
  · rw [show g.draw frame = drawChunks g.cells frame from rfl, drawChunks_eq,
      hdiv, hmin]
  · exact drawChunks_length g.cells frame

/-- Witness for the amended C3 on a 2×2 grid with a 15-byte buffer. -/
theorem draw_one_short_buffer_witness :
    (Conway.new 2 2).draw (List.replicate 15 7) =
      pixelBytes ((Conway.new 2 2).cells.take
          ((Conway.new 2 2).width * (Conway.new 2 2).height - 1)) ++
        (List.replicate 15 7).drop
          (4 * ((Conway.new 2 2).width * (Conway.new 2 2).height - 1)) ∧
    ((Conway.new 2 2).draw (List.replicate 15 7)).length =
      (List.replicate 15 7).length :=
  draw_one_short_buffer (Conway.new 2 2) (List.replicate 15 7) rfl rfl

/-- Claim C4 counterexample: `new(0, 5)` does not fail — `Conway::new`
returns `Self`, not a `Result`; there is no dimension check and no
`InvalidDimensions` anywhere in the source — it returns a complete grid with
two empty buffers, contradicting the claim that construction fails exactly
when a dimension is zero. -/
theorem new_zero_width_returns_grid :
    Conway.new 0 5 =
      { cells := [], scratch_cells := [], width := 0, height := 5 } := rfl

/-- Claim C4 as amended: `new`/`new_random` never fail: for every `width` and
`height` (zero included) they return a grid whose `cells` and
`scratch_cells` both have length `width * height`, with every cell of a
non-random grid dead. -/
theorem new_always_all_dead (w h : Nat) (draws : Nat → Bool) :
    (Conway.new w h).cells = List.replicate (w * h) false ∧
    (Conway.new w h).scratch_cells = List.replicate (w * h) false ∧
    (Conway.new_random w h draws).cells.length = w * h ∧
    (Conway.new_random w h draws).scratch_cells.length = w * h :=
  ⟨rfl, rfl, by simp [Conway.new_random], by simp [Conway.new_random, Conway.new]⟩

theorem wellFormed_new (w h : Nat) : (Conway.new w h).wellFormed := by
  simp [Conway.wellFormed, Conway.new]

theorem wellFormed_new_random (w h : Nat) (draws : Nat → Bool) :
    (Conway.new_random w h draws).wellFormed := by
  simp [Conway.wellFormed, Conway.new_random, Conway.new]

theorem wellFormed_update (g : Conway) (hg : g.wellFormed) :
    g.update.wellFormed := by
  obtain ⟨h1, h2⟩ := hg
  refine ⟨?_, ?_⟩
  · show ((List.range (g.width * g.height)).foldl _ g.scratch_cells).length = _
    rw [foldl_set_length]
    exact h2
  · exact h1

theorem wellFormed_runOps (ops : List FrameOp) :
    ∀ g : Conway, g.wellFormed → (runOps ops g).wellFormed := by
  induction ops with
  | nil => intro g hg; exact hg
  | cons op ops ih =>
    intro g hg
    cases op with
    | advance => exact ih _ (wellFormed_update g hg)
    | render frame => exact ih _ hg

/-- Claim C8 (confirmed): `cells.length = scratch_cells.length =
width * height` holds for every grid built by `new` or `new_random` and is
preserved by every sequence of `update` (advance) and `draw` (render) calls:
`update` writes the scratch buffer in place and swaps, preserving both
lengths, and `draw` takes `&self`, leaving the grid untouched. -/
theorem buffer_length_invariant (w h : Nat) (draws : Nat → Bool)
    (ops : List FrameOp) :
    (runOps ops (Conway.new w h)).wellFormed ∧
      (runOps ops (Conway.new_random w h draws)).wellFormed :=
  ⟨wellFormed_runOps ops _ (wellFormed_new w h),
    wellFormed_runOps ops _ (wellFormed_new_random w h draws)⟩

/-- Claim C10 (confirmed): construction is total for degenerate dimensions:
`new` with `width = 0` or `height = 0` returns a grid with empty buffers, on
which `update` is a no-op (zero cell writes, the swap exchanges two empty
buffers) and `draw` writes zero pixels, leaving any frame unchanged;
`new_random` likewise yields an empty cell buffer. -/
theorem degenerate_dimensions_total (w h : Nat) (hwh : w = 0 ∨ h = 0) :
    (Conway.new w h).cells = [] ∧
    (Conway.new w h).scratch_cells = [] ∧
    (Conway.new w h).update = Conway.new w h ∧
    (∀ frame : List Nat, (Conway.new w h).draw frame = frame) ∧
    (∀ draws : Nat → Bool, (Conway.new_random w h draws).cells = []) := by
  have h0 : w * h = 0 := by rcases hwh with h1 | h1 <;> simp [h1]
  refine ⟨?_, ?_, ?_, ?_, ?_⟩
  · simp [Conway.new, h0]
  · simp [Conway.new, h0]
  · simp [Conway.update, Conway.new, h0]
  · intro frame
    have hcells : (Conway.new w h).cells = ([] : List Bool) := by
      simp [Conway.new, h0]
    show drawChunks (Conway.new w h).cells frame = frame
    rw [hcells]
    rfl
  · intro draws
    simp [Conway.new_random, Conway.new, h0]

/-- Witness for C10 at `width = 0`, `height = 5`. -/
theorem degenerate_dimensions_total_witness :
    (Conway.new 0 5).cells = [] ∧
      (Conway.new 0 5).update = Conway.new 0 5 ∧
      (Conway.new 0 5).draw [1, 2, 3] = [1, 2, 3] :=
  ⟨(degenerate_dimensions_total 0 5 (Or.inl rfl)).1,
    (degenerate_dimensions_total 0 5 (Or.inl rfl)).2.2.1,
    (degenerate_dimensions_total 0 5 (Or.inl rfl)).2.2.2.1 [1, 2, 3]⟩
